import Mathlib

/-!
Verification of the resilient streaming session manager of this repository.

The embedding below is a shallow model of the two stateful parts of the code:

* `WS` models `webapp/src/ws.ts` (`WebSocketManager`): the session state is a
  record `Mgr` holding the fields of the class (`ws`, `retries`,
  `closedByClient`, `heartbeatTimer`) together with the environment state the
  class manipulates through the browser (the set of created WebSocket
  instances and their ready states, the set of live interval timers, the
  pending `setTimeout(() => this.open(), delay)` callbacks, and the log of
  outbound frames and invoked callbacks).  Each event-handler turn of the
  cooperative scheduler is one constructor of `Ev`, and `stepM` is the exact
  transition the corresponding handler body performs.  Browser facts are baked
  into the step function as guards: an `open` event fires only on a socket in
  the `connecting` state, a `close` event fires at most once per socket, a
  cleared interval timer never ticks, and `send` on a `connecting` socket
  throws (aborting the rest of the handler) while `send` on a closing or
  closed socket is silently discarded.

* `Sink` models the output coalescing of `webapp/src/ui.ts` (`appendOut`, the
  module-level `buffer` and `rafPending`, and the `requestAnimationFrame`
  callback) together with `clearOut` from `webapp/src/main.ts`.  The fields
  `rafScheduled` and `paints` are observation counters recording how many
  render passes were scheduled and how many DOM writes were performed.
-/

namespace WS

/-- Ready states of a browser WebSocket instance. -/
inductive ChState
  | connecting
  | opened
  | closing
  | closed
deriving DecidableEq

/-- Outbound frames the manager ever sends: the init payload
(`JSON.stringify(this.opts.init)`) and the heartbeat ping. -/
inductive OutFrame
  | initPayload
  | ping
deriving DecidableEq

/-- Callback invocations observable by the caller of `WebSocketManager`. -/
inductive CB
  | onToken (s : String)
  | onStart
  | onEnd
  | onError (s : String)
deriving DecidableEq

/-- The parsed shape of an inbound JSON frame, restricted to the two fields
the `onmessage` handler reads.  A field that is `undefined` on the parsed
object is `none`. -/
structure Msg where
  type : Option String
  data : Option String
deriving DecidableEq

/-- A raw inbound frame: either a string `JSON.parse` throws on, or a frame
that parses to a structured value. -/
inductive Raw
  | unparseable (s : String)
  | parsed (m : Msg)
deriving DecidableEq

/-- JavaScript `x || d` for a string-or-undefined `x`: `undefined` and the
empty string are falsy, any other string is returned as is. -/
def jsFalsyOr (v : Option String) (d : String) : String :=
  match v with
  | none => d
  | some s => if s = "" then d else s

/-- The dispatch performed by the `onmessage` handler on a successfully
parsed frame `m`: the if-chain on `m.type` from `ws.ts`. -/
def dispatchMsg (m : Msg) : List CB :=
  if m.type = some "token" then [CB.onToken (jsFalsyOr m.data "")]
  else if m.type = some "start" then [CB.onStart]
  else if m.type = some "end" then [CB.onEnd]
  else if m.type = some "error" then [CB.onError (jsFalsyOr m.data "error")]
  else []

/-- Callbacks produced by one `onmessage` turn: the whole handler body is
wrapped in `try ... catch { ignore }`, so an unparseable frame yields
nothing. -/
def onmessageCBs (r : Raw) : List CB :=
  match r with
  | Raw.unparseable _ => []
  | Raw.parsed m => dispatchMsg m

/-- State of one `WebSocketManager` together with the browser resources it
owns.  Channels are identified by creation index; interval timers by a
counter starting at 1 (browser timer ids are positive). -/
structure Mgr where
  /-- Number of WebSocket instances created so far; also the next fresh id. -/
  nextCh : Nat
  /-- Ready state of every created WebSocket instance, by id. -/
  chans : Nat → Option ChState
  /-- The `this.ws` field: id of the instance it currently references. -/
  wsRef : Option Nat
  /-- The `this.retries` field. -/
  retries : Nat
  /-- The `this.closedByClient` field. -/
  closedByClient : Bool
  /-- The `this.heartbeatTimer` field (an interval id; never nulled). -/
  hbTimer : Option Nat
  /-- Interval timers that are currently live (set but not cleared). -/
  liveHb : List Nat
  /-- Next fresh interval timer id. -/
  nextT : Nat
  /-- Number of `setTimeout(() => this.open(), delay)` callbacks that are
  scheduled and have neither fired nor been cancelled.  The code stores no
  handle for them, so nothing ever cancels one. -/
  pendingRetries : Nat
  /-- Delays (in ms) of the reconnects scheduled so far, in order. -/
  delays : List Nat
  /-- Outbound frames sent so far, tagged with the id of the instance whose
  connection carried them, in order. -/
  sent : List (Nat × OutFrame)
  /-- Callback invocations so far, in order. -/
  log : List CB

/-- The state of a freshly constructed `WebSocketManager`. -/
def initM : Mgr :=
  { nextCh := 0, chans := fun _ => none, wsRef := none, retries := 0,
    closedByClient := false, hbTimer := none, liveHb := [], nextT := 1,
    pendingRetries := 0, delays := [], sent := [], log := [] }

/-- Pointwise update of the ready-state map. -/
def setChan (f : Nat → Option ChState) (c : Nat) (st : ChState) :
    Nat → Option ChState :=
  fun x => if x = c then some st else f x

/-- The body of `open()`: create a fresh WebSocket and store it in `this.ws`.
The method tears nothing down: it does not close the previous instance, does
not clear the heartbeat interval, and does not touch `retries` or
`closedByClient`. -/
def doOpen (s : Mgr) : Mgr :=
  { s with chans := setChan s.chans s.nextCh ChState.connecting,
           wsRef := some s.nextCh, nextCh := s.nextCh + 1 }

/-- The tail of the `onopen` handler after the init send succeeded or was
discarded: invoke `onStart`, then install the heartbeat interval in
`this.heartbeatTimer`. -/
def armHb (s : Mgr) : Mgr :=
  { s with log := s.log ++ [CB.onStart],
           hbTimer := some s.nextT, liveHb := s.nextT :: s.liveHb,
           nextT := s.nextT + 1 }

/-- The `this.ws!.send(JSON.stringify(this.opts.init))` line and everything
after it in the `onopen` handler.  `send` on an open socket transmits the
frame; on a connecting socket it throws, aborting the handler; on a closing
or closed socket the data is silently discarded and the handler continues. -/
def sendInitOn (s : Mgr) : Mgr :=
  match s.wsRef with
  | none => s
  | some d =>
    match s.chans d with
    | some ChState.opened =>
        armHb { s with sent := s.sent ++ [(d, OutFrame.initPayload)] }
    | some ChState.connecting => s
    | _ => armHb s

/-- The `onopen` handler of the instance `c` (fires only while `c` is
connecting, and marks it open): reset `retries`, reset `closedByClient`,
send the init payload on `this.ws`, invoke `onStart`, start the heartbeat. -/
def doOnOpen (s : Mgr) (c : Nat) : Mgr :=
  if s.chans c = some ChState.connecting then
    sendInitOn { s with chans := setChan s.chans c ChState.opened,
                        retries := 0, closedByClient := false }
  else s

/-- Clear the interval stored in `this.heartbeatTimer`, when set.  The field
itself is not nulled by the code. -/
def clearHb (s : Mgr) : Mgr :=
  match s.hbTimer with
  | some t => { s with liveHb := s.liveHb.erase t }
  | none => s

/-- The retry half of the `onclose` handler: when the closure was not
client-initiated and `retries` is below the cap, schedule
`setTimeout(() => this.open(), 500 * 2 ** retries)` and post-increment
`retries`. -/
def retryCheck (cap : Nat) (s : Mgr) : Mgr :=
  match s.closedByClient with
  | true => s
  | false =>
    if s.retries < cap then
      { s with pendingRetries := s.pendingRetries + 1,
               delays := s.delays ++ [500 * 2 ^ s.retries],
               retries := s.retries + 1 }
    else s

/-- The `onclose` handler of the instance `c` (fires at most once per
instance, when its connection closes): clear the heartbeat interval, then
consult the retry logic. -/
def doOnClose (cap : Nat) (s : Mgr) (c : Nat) : Mgr :=
  match s.chans c with
  | none => s
  | some st =>
    if st = ChState.closed then s
    else retryCheck cap (clearHb { s with chans := setChan s.chans c ChState.closed })

/-- The id of the instance `this.ws` references, when its ready state is
`OPEN`; this is the test `this.ws?.readyState === WebSocket.OPEN` of the
heartbeat callback. -/
def curOpen (s : Mgr) : Option Nat :=
  match s.wsRef with
  | none => none
  | some d => if s.chans d = some ChState.opened then some d else none

/-- One tick of a heartbeat interval `t`.  A cleared interval never ticks;
a live one sends `ping` on `this.ws` exactly when that socket is open, and
otherwise does nothing. -/
def doTick (s : Mgr) (t : Nat) : Mgr :=
  match s.liveHb.contains t, curOpen s with
  | true, some d => { s with sent := s.sent ++ [(d, OutFrame.ping)] }
  | true, none => s
  | false, _ => s

/-- The `close(1000, "client stop")` call of `stop()` on `this.ws` when
present: a connecting or open socket moves to `closing`; on an already
closing or closed socket the call is a no-op.  It never throws (1000 is a
permitted code). -/
def closeCur (s : Mgr) : Mgr :=
  match s.wsRef with
  | none => s
  | some d =>
    match s.chans d with
    | some ChState.connecting => { s with chans := setChan s.chans d ChState.closing }
    | some ChState.opened => { s with chans := setChan s.chans d ChState.closing }
    | _ => s

/-- The body of `stop()`: set `closedByClient`, clear the heartbeat
interval, and close `this.ws`.  Nothing cancels a pending reconnect
`setTimeout`. -/
def doStop (s : Mgr) : Mgr :=
  closeCur (clearHb { s with closedByClient := true })

/-- One cooperative-scheduler turn affecting the manager. -/
inductive Ev
  | callOpen
  | onOpen (c : Nat)
  | tick (t : Nat)
  | message (r : Raw)
  | errorEv
  | onClose (c : Nat)
  | retryFire
  | callStop
deriving DecidableEq

/-- The transition performed by one turn. -/
def stepM (cap : Nat) (s : Mgr) : Ev → Mgr
  | Ev.callOpen => doOpen s
  | Ev.onOpen c => doOnOpen s c
  | Ev.tick t => doTick s t
  | Ev.message r => { s with log := s.log ++ onmessageCBs r }
  | Ev.errorEv => { s with log := s.log ++ [CB.onError "ws_error"] }
  | Ev.onClose c => doOnClose cap s c
  | Ev.retryFire =>
      if 0 < s.pendingRetries then
        doOpen { s with pendingRetries := s.pendingRetries - 1 }
      else s
  | Ev.callStop => doStop s

/-- Run a sequence of turns from the freshly constructed manager.  `cap` is
`this.opts.maxRetries ?? 3`. -/
def runM (cap : Nat) (evs : List Ev) : Mgr :=
  evs.foldl (stepM cap) initM

/-- Frames carried by the connection of instance `c`, in order. -/
def sentOn (l : List (Nat × OutFrame)) (c : Nat) : List OutFrame :=
  (l.filter (fun p => p.1 == c)).map Prod.snd

/-- Whether a frame is the heartbeat ping. -/
def isPing : OutFrame → Bool
  | OutFrame.ping => true
  | _ => false

/-- A frame list is init-led when it is empty or starts with the init
payload followed only by pings. -/
def initLed : List OutFrame → Bool
  | [] => true
  | f :: rest => (match f with | OutFrame.initPayload => true | _ => false) && rest.all isPing

/-- Side condition on one turn: an `open` event is only considered for the
instance `this.ws` currently references. -/
def evOkB (s : Mgr) : Ev → Bool
  | Ev.onOpen c => s.wsRef == some c
  | _ => true

/-- Side condition on a whole trace, threaded through the run. -/
def opensCurrentB (cap : Nat) : Mgr → List Ev → Bool
  | _, [] => true
  | s, e :: rest => evOkB s e && opensCurrentB cap (stepM cap s e) rest

/-- Dispatch table transcribed from the specification's words (with the
`error` case amended to carry `"error"` also when the message is the empty
string): `token` invokes `onToken` with the carried data, missing data
treated as the empty string; `start` invokes `onStart`; `end` invokes
`onEnd`; `error` invokes `onError` with the carried message, or `"error"`
if the message is absent or empty; any other kind invokes nothing. -/
def specDispatch (m : Msg) : List CB :=
  match m.type with
  | none => []
  | some t =>
    if t = "token" then [CB.onToken (m.data.getD "")]
    else if t = "start" then [CB.onStart]
    else if t = "end" then [CB.onEnd]
    else if t = "error" then
      [CB.onError (match m.data with
        | none => "error"
        | some s => if s = "" then "error" else s)]
    else []

/-- Induction invariant tying socket states to the per-socket frame logs:
ids at or above `nextCh` are unused, `this.ws` references a created
instance, every per-socket frame log is the init payload followed only by
pings, a socket that has not opened has an empty log, and an open socket
has sent its init payload. -/
def Inv (s : Mgr) : Prop :=
  (∀ c, s.nextCh ≤ c → s.chans c = none) ∧
  (∀ c, s.nextCh ≤ c → sentOn s.sent c = []) ∧
  (∀ d, s.wsRef = some d → d < s.nextCh) ∧
  (∀ c, initLed (sentOn s.sent c) = true) ∧
  (∀ c, s.chans c = none ∨ s.chans c = some ChState.connecting →
    sentOn s.sent c = []) ∧
  (∀ c, s.chans c = some ChState.opened → sentOn s.sent c ≠ [])

end WS

namespace Sink

/-- State of the output sink: the module-level `buffer` and `rafPending` of
`ui.ts`, the text content of the `#out` element, and two observation
counters (`rafScheduled`: calls to `requestAnimationFrame`; `paints`:
writes to `#out` performed by the scheduled pass). -/
structure St where
  buffer : String
  rafPending : Bool
  out : String
  rafScheduled : Nat
  paints : Nat
deriving DecidableEq

/-- `appendOut(s)` from `ui.ts`: grow the buffer; when no render pass is
pending, arm one. -/
def appendOut (st : St) (frag : String) : St :=
  let st1 : St := { st with buffer := st.buffer ++ frag }
  if st1.rafPending then st1
  else { st1 with rafPending := true, rafScheduled := st1.rafScheduled + 1 }

/-- The `requestAnimationFrame` callback from `appendOut`: flush the whole
buffer into the output in one write, clear it, disarm. -/
def rafFlush (st : St) : St :=
  { st with out := st.out ++ st.buffer, buffer := "", rafPending := false,
            paints := st.paints + 1 }

/-- `clearOut()` from `main.ts`: empty the rendered output.  It does not
touch the `ui.ts` buffer or the armed flag. -/
def clearOut (st : St) : St :=
  { st with out := "" }

/-- Concatenation of a list of fragments in order. -/
def joinAll : List String → String
  | [] => ""
  | f :: r => f ++ joinAll r

end Sink

namespace Sink

/-- Appending to an already-armed sink only grows the buffer. -/
theorem appendOut_pending (st : St) (frag : String) (h : st.rafPending = true) :
    appendOut st frag = { st with buffer := st.buffer ++ frag } := by
  simp [appendOut, h]

/-- Appending to a disarmed sink grows the buffer and arms one render pass. -/
theorem appendOut_disarmed (st : St) (frag : String) (h : st.rafPending = false) :
    appendOut st frag =
      { st with buffer := st.buffer ++ frag, rafPending := true,
                rafScheduled := st.rafScheduled + 1 } := by
  simp [appendOut, h]

/-- A burst of appends on an armed sink accumulates the concatenation of the
fragments in the buffer and changes nothing else. -/
theorem foldl_appendOut_pending (frags : List String) (st : St)
    (h : st.rafPending = true) :
    frags.foldl appendOut st = { st with buffer := st.buffer ++ joinAll frags } := by
  induction frags generalizing st with
  | nil => simp [joinAll, String.append_empty]
  | cons f r ih =>
    rw [List.foldl_cons, appendOut_pending st f h,
      ih { st with buffer := st.buffer ++ f } h]
    simp [joinAll, String.append_assoc]

/-- Claim C5: for every finite sequence of `appendOut` calls within one
scheduling tick (starting from a sink with no pass armed and an empty
buffer), the render pass appends to the rendered output exactly the
concatenation of all the fragments in arrival order, clears the buffer, and
the whole burst arms exactly one render pass performing exactly one paint. -/
theorem C5_coalesce (st : St) (frags : List String) (h1 : st.rafPending = false)
    (h2 : st.buffer = "") (h3 : frags ≠ []) :
    (rafFlush (frags.foldl appendOut st)).out = st.out ++ joinAll frags ∧
    (rafFlush (frags.foldl appendOut st)).buffer = "" ∧
    (rafFlush (frags.foldl appendOut st)).rafPending = false ∧
    (rafFlush (frags.foldl appendOut st)).paints = st.paints + 1 ∧
    (frags.foldl appendOut st).rafScheduled = st.rafScheduled + 1 := by
  cases frags with
  | nil => exact absurd rfl h3
  | cons f r =>
    rw [List.foldl_cons, appendOut_disarmed st f h1,
      foldl_appendOut_pending r _ rfl]
    simp [rafFlush, joinAll, h2, String.empty_append, String.append_assoc]

/-- Witness for C5: the three-token burst `"Hello"`, `" "`, `"world"` of the
specification's scenario renders as one paint of `"Hello world"`. -/
theorem C5_coalesce_witness :
    (rafFlush (["Hello", " ", "world"].foldl appendOut
        ⟨"", false, "", 0, 0⟩)).out = "Hello world" ∧
    (["Hello", " ", "world"].foldl appendOut ⟨"", false, "", 0, 0⟩).rafScheduled = 1 := by
  have h := C5_coalesce ⟨"", false, "", 0, 0⟩ ["Hello", " ", "world"]
    rfl rfl (by decide)
  refine ⟨h.1.trans (by decide), h.2.2.2.2⟩

/-- Claim C4 is false on the code: `clearOut` (the clear button handler in
`main.ts`) empties only the rendered output; the pending fragment buffer of
`ui.ts` is untouched, so a fragment appended before `clearOut` but not yet
flushed is painted by the already-armed render pass after `clearOut`
returns. -/
theorem C4_counterexample :
    (clearOut (appendOut ⟨"", false, "", 0, 0⟩ "Hello")).out = "" ∧
    (rafFlush (clearOut (appendOut ⟨"", false, "", 0, 0⟩ "Hello"))).out = "Hello" ∧
    ("Hello" : String) ≠ "" := by
  refine ⟨rfl, by decide, by decide⟩

/-- Claim C4 as amended: `clearOut()` immediately empties the rendered
output, but not the pending fragment buffer — the buffer and the armed flag
are unchanged, and fragments appended before the call that have not yet been
flushed are still painted by the next render pass. -/
theorem C4_clear_behavior (st : St) :
    (clearOut st).out = "" ∧
    (clearOut st).buffer = st.buffer ∧
    (clearOut st).rafPending = st.rafPending ∧
    (rafFlush (clearOut st)).out = st.buffer := by
  refine ⟨rfl, rfl, rfl, ?_⟩
  simp [clearOut, rafFlush, String.empty_append]

end Sink

namespace WS

/-- JavaScript `x || ""` on a string-or-undefined agrees with "missing
treated as empty string", because the empty string is its own default. -/
theorem jsFalsyOr_empty (v : Option String) : jsFalsyOr v "" = v.getD "" := by
  cases v with
  | none => rfl
  | some s =>
    by_cases h : s = "" <;> simp [jsFalsyOr, h]

/-- Claim C6: a raw inbound frame that fails to parse as structured data is
swallowed by the `try ... catch` of the `onmessage` handler: the step is a
no-op on the whole session state, so no callback fires, no frame is sent, no
timer or channel changes, and (the step being a total function) no exception
escapes. -/
theorem C6_malformed (cap : Nat) (s : Mgr) (str : String) :
    stepM cap s (Ev.message (Raw.unparseable str)) = s := by
  cases s
  simp [stepM, onmessageCBs]

/-- Claim C7 is false on the code at the frame `{type: "error", data: ""}`:
the handler runs `m.data || "error"`, and the empty string is falsy in
JavaScript, so the carried (empty) message is replaced by `"error"` instead
of being forwarded as the claim states. -/
theorem C7_counterexample :
    dispatchMsg ⟨some "error", some ""⟩ = [CB.onError "error"] ∧
    dispatchMsg ⟨some "error", some ""⟩ ≠ [CB.onError ""] := by
  refine ⟨by decide, by decide⟩

/-- Claim C7 as amended: for every well-formed inbound frame, dispatch is
exactly: kind `token` invokes `onToken` with the carried data, missing data
treated as the empty string; kind `start` invokes `onStart`; kind `end`
invokes `onEnd`; kind `error` invokes `onError` with the carried message, or
`"error"` if the message is absent or empty; any unrecognized kind invokes
no callback; and a transport-level error event invokes `onError` with
exactly `"ws_error"`. -/
theorem C7_dispatch :
    (∀ m : Msg, dispatchMsg m = specDispatch m) ∧
    (∀ (cap : Nat) (s : Mgr),
      (stepM cap s Ev.errorEv).log = s.log ++ [CB.onError "ws_error"]) := by
  refine ⟨?_, fun cap s => rfl⟩
  intro m
  obtain ⟨ty, da⟩ := m
  cases ty with
  | none => rfl
  | some t =>
    by_cases h1 : t = "token"
    · simp [dispatchMsg, specDispatch, h1, jsFalsyOr_empty]
    · by_cases h2 : t = "start"
      · simp [dispatchMsg, specDispatch, h1, h2]
      · by_cases h3 : t = "end"
        · simp [dispatchMsg, specDispatch, h1, h2, h3]
        · by_cases h4 : t = "error"
          · simp [dispatchMsg, specDispatch, h1, h2, h3, h4, jsFalsyOr]
          · simp [dispatchMsg, specDispatch, h1, h2, h3, h4]

end WS

namespace WS

/-- Clearing the heartbeat interval touches only the set of live timers. -/
theorem clearHb_fields (s : Mgr) :
    (clearHb s).nextCh = s.nextCh ∧ (clearHb s).chans = s.chans ∧
    (clearHb s).wsRef = s.wsRef ∧ (clearHb s).retries = s.retries ∧
    (clearHb s).closedByClient = s.closedByClient ∧
    (clearHb s).pendingRetries = s.pendingRetries ∧
    (clearHb s).delays = s.delays ∧ (clearHb s).sent = s.sent := by
  cases h : s.hbTimer <;> simp [clearHb, h]

/-- Starting the heartbeat touches neither the channels nor the frame log
nor the retry state. -/
theorem armHb_fields (s : Mgr) :
    (armHb s).nextCh = s.nextCh ∧ (armHb s).chans = s.chans ∧
    (armHb s).wsRef = s.wsRef ∧ (armHb s).retries = s.retries ∧
    (armHb s).closedByClient = s.closedByClient ∧
    (armHb s).pendingRetries = s.pendingRetries ∧
    (armHb s).delays = s.delays := by
  simp [armHb]

/-- The send-and-arm tail of the `onopen` handler leaves the retry state
unchanged. -/
theorem sendInitOn_retries (s : Mgr) : (sendInitOn s).retries = s.retries := by
  cases h : s.wsRef with
  | none => simp [sendInitOn, h]
  | some d =>
    cases h2 : s.chans d with
    | none => simp [sendInitOn, h, h2, armHb]
    | some st => cases st <;> simp [sendInitOn, h, h2, armHb]

/-- A heartbeat tick leaves every field except the frame log unchanged. -/
theorem doTick_fields (s : Mgr) (t : Nat) :
    (doTick s t).retries = s.retries ∧ (doTick s t).delays = s.delays ∧
    (doTick s t).pendingRetries = s.pendingRetries ∧
    (doTick s t).chans = s.chans ∧ (doTick s t).nextCh = s.nextCh ∧
    (doTick s t).wsRef = s.wsRef := by
  unfold doTick
  cases h : s.liveHb.contains t with
  | false => simp
  | true => cases h2 : curOpen s <;> simp [h2]

/-- Closing the current socket touches only the ready-state map. -/
theorem closeCur_fields (s : Mgr) :
    (closeCur s).retries = s.retries ∧ (closeCur s).delays = s.delays ∧
    (closeCur s).pendingRetries = s.pendingRetries ∧
    (closeCur s).nextCh = s.nextCh ∧ (closeCur s).wsRef = s.wsRef ∧
    (closeCur s).sent = s.sent ∧ (closeCur s).closedByClient = s.closedByClient ∧
    (closeCur s).liveHb = s.liveHb := by
  cases h : s.wsRef with
  | none => simp [closeCur, h]
  | some d =>
    cases h2 : s.chans d with
    | none => simp [closeCur, h, h2]
    | some st => cases st <;> simp [closeCur, h, h2]

/-- `stop()` leaves the retry counter, the delays and the pending timeouts
unchanged (it only sets the flag, clears the interval, and closes the
socket). -/
theorem doStop_fields (s : Mgr) :
    (doStop s).retries = s.retries ∧ (doStop s).delays = s.delays ∧
    (doStop s).pendingRetries = s.pendingRetries ∧
    (doStop s).nextCh = s.nextCh ∧ (doStop s).wsRef = s.wsRef ∧
    (doStop s).sent = s.sent := by
  have hc := clearHb_fields { s with closedByClient := true }
  have hk := closeCur_fields (clearHb { s with closedByClient := true })
  unfold doStop
  exact ⟨hk.1.trans hc.2.2.2.1, hk.2.1.trans hc.2.2.2.2.2.2.1,
    hk.2.2.1.trans hc.2.2.2.2.2.1, hk.2.2.2.1.trans hc.1,
    hk.2.2.2.2.1.trans hc.2.2.1, hk.2.2.2.2.2.1.trans hc.2.2.2.2.2.2.2⟩

end WS

namespace WS

/-- Reduction of the `onclose` turn for an instance that has not yet
closed. -/
theorem stepM_onClose_eq (cap : Nat) (s : Mgr) (c : Nat) (st : ChState)
    (hc : s.chans c = some st) (hne : st ≠ ChState.closed) :
    stepM cap s (Ev.onClose c) =
      retryCheck cap (clearHb { s with chans := setChan s.chans c ChState.closed }) := by
  simp [stepM, doOnClose, hc, hne]

/-- Behavior of the retry decision when the closure was not
client-initiated. -/
theorem retryCheck_eq (cap : Nat) (s : Mgr) (h : s.closedByClient = false) :
    (retryCheck cap s).delays =
      s.delays ++ (if s.retries < cap then [500 * 2 ^ s.retries] else []) ∧
    (retryCheck cap s).retries =
      (if s.retries < cap then s.retries + 1 else s.retries) ∧
    (retryCheck cap s).pendingRetries =
      s.pendingRetries + (if s.retries < cap then 1 else 0) := by
  by_cases h2 : s.retries < cap <;> simp [retryCheck, h, h2]

/-- Claim C2: on an unexpected closure (`closedByClient` false) of a live
instance, a retry is scheduled if and only if `retries < cap`, with delay
exactly `500 * 2 ^ retries` ms; the counter increments exactly when a retry
is scheduled and resets to 0 on every successful open.  Concretely, with
`maxRetries = 2` an unexpected-closure sequence schedules delays 500 ms then
1000 ms then nothing, and a successful open in between makes the next first
delay 500 ms again. -/
theorem C2_backoff (cap : Nat) (s : Mgr) (c : Nat) (st : ChState)
    (hc : s.chans c = some st) (hne : st ≠ ChState.closed)
    (hcl : s.closedByClient = false) :
    ((stepM cap s (Ev.onClose c)).delays =
      s.delays ++ (if s.retries < cap then [500 * 2 ^ s.retries] else [])) ∧
    ((stepM cap s (Ev.onClose c)).retries =
      (if s.retries < cap then s.retries + 1 else s.retries)) ∧
    ((stepM cap s (Ev.onClose c)).pendingRetries =
      s.pendingRetries + (if s.retries < cap then 1 else 0)) ∧
    (∀ d : Nat, s.chans d = some ChState.connecting →
      (stepM cap s (Ev.onOpen d)).retries = 0) ∧
    (runM 2 [Ev.callOpen, Ev.onOpen 0, Ev.onClose 0, Ev.retryFire, Ev.onClose 1,
      Ev.retryFire, Ev.onClose 2]).delays = [500, 1000] ∧
    (runM 2 [Ev.callOpen, Ev.onOpen 0, Ev.onClose 0, Ev.retryFire, Ev.onClose 1,
      Ev.retryFire, Ev.onClose 2]).pendingRetries = 0 ∧
    (runM 2 [Ev.callOpen, Ev.onOpen 0, Ev.onClose 0, Ev.retryFire, Ev.onOpen 1,
      Ev.onClose 1]).delays = [500, 500] := by
  have hcf := clearHb_fields { s with chans := setChan s.chans c ChState.closed }
  have hcl2 : (clearHb { s with chans := setChan s.chans c ChState.closed }).closedByClient = false := by
    rw [hcf.2.2.2.2.1]; exact hcl
  have hrc := retryCheck_eq cap (clearHb { s with chans := setChan s.chans c ChState.closed }) hcl2
  rw [stepM_onClose_eq cap s c st hc hne]
  refine ⟨?_, ?_, ?_, ?_, by decide, by decide, by decide⟩
  · rw [hrc.1, hcf.2.2.2.2.2.2.1, hcf.2.2.2.1]
  · rw [hrc.2.1, hcf.2.2.2.1]
  · rw [hrc.2.2, hcf.2.2.2.2.2.1, hcf.2.2.2.1]
  · intro d hd
    simp [stepM, doOnOpen, hd, sendInitOn_retries]

/-- Witness for C2 at a concrete reachable state: the first unexpected
closure after a successful open schedules a 500 ms retry and bumps the
counter to 1. -/
theorem C2_backoff_witness :
    (stepM 2 (runM 2 [Ev.callOpen, Ev.onOpen 0]) (Ev.onClose 0)).delays = [500] ∧
    (stepM 2 (runM 2 [Ev.callOpen, Ev.onOpen 0]) (Ev.onClose 0)).retries = 1 := by
  have h := C2_backoff 2 (runM 2 [Ev.callOpen, Ev.onOpen 0]) 0 ChState.opened
    (by decide) (by decide) (by decide)
  refine ⟨h.1.trans (by decide), h.2.1.trans (by decide)⟩

/-- The retry decision never pushes the counter beyond the cap. -/
theorem retryCheck_retries_le (cap : Nat) (s : Mgr) (h : s.retries ≤ cap) :
    (retryCheck cap s).retries ≤ cap := by
  cases hb : s.closedByClient
  · by_cases h2 : s.retries < cap <;> simp [retryCheck, hb, h2] <;> omega
  · simpa [retryCheck, hb] using h

/-- Every single turn preserves `retries ≤ cap`. -/
theorem stepM_retries_le (cap : Nat) (s : Mgr) (e : Ev) (h : s.retries ≤ cap) :
    (stepM cap s e).retries ≤ cap := by
  cases e with
  | callOpen => exact h
  | onOpen c =>
    by_cases hg : s.chans c = some ChState.connecting
    · simp [stepM, doOnOpen, hg, sendInitOn_retries]
    · simpa [stepM, doOnOpen, hg] using h
  | tick t => exact (doTick_fields s t).1 ▸ h
  | message r => exact h
  | errorEv => exact h
  | onClose c =>
    cases hc : s.chans c with
    | none => simpa [stepM, doOnClose, hc] using h
    | some st =>
      by_cases he : st = ChState.closed
      · simpa [stepM, doOnClose, hc, he] using h
      · rw [stepM_onClose_eq cap s c st hc he]
        apply retryCheck_retries_le
        rw [(clearHb_fields _).2.2.2.1]
        exact h
  | retryFire =>
    by_cases hp : 0 < s.pendingRetries <;> simp [stepM, hp] <;> exact h
  | callStop => exact (doStop_fields s).1 ▸ h

/-- Claim C10: in every reachable state of a `WebSocketManager`, the retry
attempt counter never exceeds the configured maximum `cap`
(`this.opts.maxRetries ?? 3`): it is incremented only under the guard
`retries < cap` and reset to 0 on every successful open, so at most `cap`
reconnects are ever scheduled between two successful opens. -/
theorem C10_retry_bound (cap : Nat) (evs : List Ev) :
    (runM cap evs).retries ≤ cap := by
  suffices hgen : ∀ (l : List Ev) (s : Mgr), s.retries ≤ cap →
      (l.foldl (stepM cap) s).retries ≤ cap by
    exact hgen evs initM (Nat.zero_le cap)
  intro l
  induction l with
  | nil => intro s hs; exact hs
  | cons e rest ih =>
    intro s hs
    exact ih (stepM cap s e) (stepM_retries_le cap s e hs)

end WS

namespace WS

/-- Claim C9: a tick of a live heartbeat interval sends a keep-alive ping if
and only if the socket the session currently owns reports the open state
(`this.ws?.readyState === WebSocket.OPEN`); when no owned socket is open the
tick changes nothing at all (it is skipped, and the step being total, no
error is raised). -/
theorem C9_heartbeat (cap : Nat) (s : Mgr) (t : Nat)
    (h : s.liveHb.contains t = true) :
    (stepM cap s (Ev.tick t)).sent =
      s.sent ++ (match curOpen s with
        | some d => [(d, OutFrame.ping)]
        | none => []) ∧
    (curOpen s = none → stepM cap s (Ev.tick t) = s) := by
  have hstep : stepM cap s (Ev.tick t) = doTick s t := rfl
  rw [hstep]
  unfold doTick
  rw [h]
  cases h2 : curOpen s with
  | some d => exact ⟨rfl, fun hn => Option.noConfusion hn⟩
  | none => exact ⟨by simp, fun _ => rfl⟩

/-- Witness for C9: in the reachable state after one open, the heartbeat
interval 1 is live, the owned socket 0 is open, and a tick sends one ping
on it. -/
theorem C9_heartbeat_witness :
    (stepM 3 (runM 3 [Ev.callOpen, Ev.onOpen 0]) (Ev.tick 1)).sent =
      (runM 3 [Ev.callOpen, Ev.onOpen 0]).sent ++ [(0, OutFrame.ping)] := by
  have h := (C9_heartbeat 3 (runM 3 [Ev.callOpen, Ev.onOpen 0]) 1 (by decide)).1
  rw [h]
  decide

/-- Claim C1 is violated by the code (`stop()` does not cancel a pending
retry timer): after an unexpected closure schedules a reconnect, calling
`stop()` leaves the scheduled `setTimeout(() => this.open(), delay)` in
place — the code keeps no handle to it and `open()` never consults
`closedByClient` — so when it fires, `open()` runs and creates a fresh
WebSocket instance after `stop()` returned. -/
theorem C1_retry_after_stop :
    (runM 2 [Ev.callOpen, Ev.onOpen 0, Ev.onClose 0, Ev.callStop]).closedByClient = true ∧
    (runM 2 [Ev.callOpen, Ev.onOpen 0, Ev.onClose 0, Ev.callStop]).pendingRetries = 1 ∧
    (runM 2 [Ev.callOpen, Ev.onOpen 0, Ev.onClose 0, Ev.callStop, Ev.retryFire]).nextCh = 2 ∧
    (runM 2 [Ev.callOpen, Ev.onOpen 0, Ev.onClose 0, Ev.callStop, Ev.retryFire]).chans 1 =
      some ChState.connecting := by
  exact ⟨by decide, by decide, by decide, by decide⟩

/-- Claim C3 is violated by the code (`open()` tears nothing down): calling
`open()` while instance 0 is open leaves instance 0 open and its heartbeat
interval (id 1) live, and once the second instance opens, two sockets are
open and two heartbeat intervals (ids 2 and 1) are live at once. -/
theorem C3_no_teardown :
    (runM 3 [Ev.callOpen, Ev.onOpen 0, Ev.callOpen]).chans 0 = some ChState.opened ∧
    (runM 3 [Ev.callOpen, Ev.onOpen 0, Ev.callOpen]).liveHb = [1] ∧
    (runM 3 [Ev.callOpen, Ev.onOpen 0, Ev.callOpen, Ev.onOpen 1]).chans 0 =
      some ChState.opened ∧
    (runM 3 [Ev.callOpen, Ev.onOpen 0, Ev.callOpen, Ev.onOpen 1]).chans 1 =
      some ChState.opened ∧
    (runM 3 [Ev.callOpen, Ev.onOpen 0, Ev.callOpen, Ev.onOpen 1]).liveHb = [2, 1] := by
  exact ⟨by decide, by decide, by decide, by decide, by decide⟩

end WS

namespace WS

/-- Appending one tagged frame extends exactly the log of its socket. -/
theorem sentOn_append (l : List (Nat × OutFrame)) (d c : Nat) (f : OutFrame) :
    sentOn (l ++ [(d, f)]) c = sentOn l c ++ (if d = c then [f] else []) := by
  by_cases h : d = c <;> simp [sentOn, h]

/-- An init-led nonempty log stays init-led after one more ping. -/
theorem initLed_append_ping (l : List OutFrame) (h1 : initLed l = true)
    (h2 : l ≠ []) : initLed (l ++ [OutFrame.ping]) = true := by
  cases l with
  | nil => exact absurd rfl h2
  | cons f rest =>
    simp only [initLed, Bool.and_eq_true] at h1
    simp only [List.cons_append, initLed, Bool.and_eq_true, List.all_append]
    exact ⟨h1.1, by simp [h1.2, isPing]⟩

/-- The invariant holds for a freshly constructed manager. -/
theorem inv_init : Inv initM := by
  refine ⟨fun c _ => rfl, fun c _ => rfl, fun d hd => Option.noConfusion hd,
    fun c => rfl, fun c _ => rfl, fun c hc => Option.noConfusion hc⟩

/-- `open()` preserves the invariant. -/
theorem inv_doOpen (s : Mgr) (h : Inv s) : Inv (doOpen s) := by
  obtain ⟨h1, h2, h3, h4, h5, h6⟩ := h
  refine ⟨?_, ?_, ?_, h4, ?_, ?_⟩
  · intro c hc
    have hc' : s.nextCh + 1 ≤ c := hc
    have hne : ¬ (c = s.nextCh) := by omega
    simp only [doOpen, setChan]
    simp only [hne, if_false]
    exact h1 c (by omega)
  · intro c hc
    have hc' : s.nextCh + 1 ≤ c := hc
    exact h2 c (by omega)
  · intro d hd
    have hd' : some s.nextCh = some d := hd
    have : s.nextCh = d := Option.some.inj hd'
    show d < s.nextCh + 1
    omega
  · intro c hc
    by_cases he : c = s.nextCh
    · subst he
      exact h2 s.nextCh (Nat.le_refl s.nextCh)
    · have hc' : s.chans c = none ∨ s.chans c = some ChState.connecting := by
        simpa [doOpen, setChan, he] using hc
      exact h5 c hc'
  · intro c hc
    by_cases he : c = s.nextCh
    · subst he
      simp [doOpen, setChan] at hc
    · have hc' : s.chans c = some ChState.opened := by
        simpa [doOpen, setChan, he] using hc
      exact h6 c hc'

end WS

namespace WS

/-- Reduction of the `onopen` turn when it fires on the instance `this.ws`
currently references: the init payload goes out on that instance and the
heartbeat starts. -/
theorem doOnOpen_eq (s : Mgr) (c : Nat) (hws : s.wsRef = some c)
    (hg : s.chans c = some ChState.connecting) :
    doOnOpen s c =
      armHb { s with chans := setChan s.chans c ChState.opened, retries := 0,
                     closedByClient := false,
                     sent := s.sent ++ [(c, OutFrame.initPayload)] } := by
  unfold doOnOpen
  rw [if_pos hg]
  unfold sendInitOn
  simp [hws, setChan]

/-- `onopen` on the current instance preserves the invariant. -/
theorem inv_doOnOpen (s : Mgr) (c : Nat) (hws : s.wsRef = some c) (h : Inv s) :
    Inv (doOnOpen s c) := by
  obtain ⟨h1, h2, h3, h4, h5, h6⟩ := h
  by_cases hg : s.chans c = some ChState.connecting
  · have hlt : c < s.nextCh := h3 c hws
    rw [doOnOpen_eq s c hws hg]
    have hemp : sentOn s.sent c = [] := h5 c (Or.inr hg)
    unfold Inv
    dsimp only [armHb]
    refine ⟨?_, ?_, ?_, ?_, ?_, ?_⟩
    · intro x hx
      have hx' : s.nextCh ≤ x := hx
      have hne : ¬ (x = c) := by omega
      simpa [setChan, hne] using h1 x hx'
    · intro x hx
      have hx' : s.nextCh ≤ x := hx
      have hne : ¬ (c = x) := by omega
      rw [sentOn_append]
      simp only [hne, if_false, List.append_nil]
      exact h2 x hx'
    · intro d hd
      exact h3 d hd
    · intro x
      by_cases hxc : x = c
      · subst hxc
        rw [sentOn_append, hemp]
        simp [initLed, isPing]
      · have hne : ¬ (c = x) := fun hh => hxc hh.symm
        rw [sentOn_append]
        simp only [hne, if_false, List.append_nil]
        exact h4 x
    · intro x hx
      by_cases hxc : x = c
      · subst hxc
        rcases hx with hx | hx <;> simp [setChan] at hx
      · have hx' : s.chans x = none ∨ s.chans x = some ChState.connecting := by
          simpa [setChan, hxc] using hx
        have hne : ¬ (c = x) := fun hh => hxc hh.symm
        rw [sentOn_append]
        simp only [hne, if_false, List.append_nil]
        exact h5 x hx'
    · intro x hx
      by_cases hxc : x = c
      · subst hxc
        rw [sentOn_append, hemp]
        simp
      · have hx' : s.chans x = some ChState.opened := by
          simpa [setChan, hxc] using hx
        have hne : ¬ (c = x) := fun hh => hxc hh.symm
        rw [sentOn_append]
        simp only [hne, if_false, List.append_nil]
        exact h6 x hx'
  · unfold doOnOpen
    rw [if_neg hg]
    exact ⟨h1, h2, h3, h4, h5, h6⟩

end WS

namespace WS

/-- Characterization of a positive heartbeat test: `this.ws` exists and its
ready state is open. -/
theorem curOpen_some (s : Mgr) (d : Nat) (h : curOpen s = some d) :
    s.wsRef = some d ∧ s.chans d = some ChState.opened := by
  unfold curOpen at h
  cases hw : s.wsRef with
  | none => rw [hw] at h; exact Option.noConfusion h
  | some e =>
    rw [hw] at h
    dsimp only at h
    by_cases hoe : s.chans e = some ChState.opened
    · rw [if_pos hoe] at h
      have hed : e = d := Option.some.inj h
      subst hed
      exact ⟨rfl, hoe⟩
    · rw [if_neg hoe] at h
      exact Option.noConfusion h

/-- A heartbeat tick preserves the invariant. -/
theorem inv_doTick (s : Mgr) (t : Nat) (h : Inv s) : Inv (doTick s t) := by
  obtain ⟨h1, h2, h3, h4, h5, h6⟩ := h
  unfold doTick
  cases hcont : s.liveHb.contains t with
  | false => exact ⟨h1, h2, h3, h4, h5, h6⟩
  | true =>
    cases hcur : curOpen s with
    | none => exact ⟨h1, h2, h3, h4, h5, h6⟩
    | some d =>
      obtain ⟨hw, ho⟩ := curOpen_some s d hcur
      have hlt : d < s.nextCh := h3 d hw
      have hne : sentOn s.sent d ≠ [] := h6 d ho
      unfold Inv
      dsimp only
      refine ⟨h1, ?_, h3, ?_, ?_, ?_⟩
      · intro x hx
        have hdx : ¬ (d = x) := by omega
        rw [sentOn_append]
        simp only [hdx, if_false, List.append_nil]
        exact h2 x hx
      · intro x
        by_cases hxd : x = d
        · subst hxd
          rw [sentOn_append]
          simp only [if_pos rfl]
          exact initLed_append_ping (sentOn s.sent x) (h4 x) hne
        · have hdx : ¬ (d = x) := fun hh => hxd hh.symm
          rw [sentOn_append]
          simp only [hdx, if_false, List.append_nil]
          exact h4 x
      · intro x hx
        have hxd : ¬ (d = x) := by
          intro hh
          subst hh
          rcases hx with hx | hx <;> rw [ho] at hx <;> simp at hx
        rw [sentOn_append]
        simp only [hxd, if_false, List.append_nil]
        exact h5 x hx
      · intro x hx
        by_cases hxd : x = d
        · subst hxd
          rw [sentOn_append]
          simp only [if_pos rfl]
          simp
        · have hdx : ¬ (d = x) := fun hh => hxd hh.symm
          rw [sentOn_append]
          simp only [hdx, if_false, List.append_nil]
          exact h6 x hx

end WS

namespace WS

/-- Clearing the heartbeat interval preserves the invariant. -/
theorem inv_clearHb (s : Mgr) (h : Inv s) : Inv (clearHb s) := by
  unfold clearHb
  cases ht : s.hbTimer with
  | none => exact h
  | some t => exact h

/-- The retry decision preserves the invariant. -/
theorem inv_retryCheck (cap : Nat) (s : Mgr) (h : Inv s) :
    Inv (retryCheck cap s) := by
  unfold retryCheck
  cases hb : s.closedByClient with
  | true => exact h
  | false =>
    by_cases h2 : s.retries < cap
    · rw [if_pos h2]; exact h
    · rw [if_neg h2]; exact h

/-- Marking one created socket with a new ready state preserves the
invariant provided the new state is neither `connecting` nor `opened`. -/
theorem inv_setChan_dead (s : Mgr) (c : Nat) (st : ChState)
    (hc : ¬ s.chans c = none)
    (hst1 : st ≠ ChState.connecting) (hst2 : st ≠ ChState.opened)
    (h : Inv s) : Inv { s with chans := setChan s.chans c st } := by
  obtain ⟨h1, h2, h3, h4, h5, h6⟩ := h
  have hlt : c < s.nextCh := by
    by_contra hge
    push_neg at hge
    exact hc (h1 c hge)
  unfold Inv
  dsimp only
  refine ⟨?_, h2, h3, h4, ?_, ?_⟩
  · intro x hx
    have hne : ¬ (x = c) := by omega
    simpa [setChan, hne] using h1 x hx
  · intro x hx
    by_cases hxc : x = c
    · subst hxc
      rcases hx with hx | hx <;> simp [setChan] at hx
      · exact absurd hx hst1
    · have hx' : s.chans x = none ∨ s.chans x = some ChState.connecting := by
        simpa [setChan, hxc] using hx
      exact h5 x hx'
  · intro x hx
    by_cases hxc : x = c
    · subst hxc
      simp [setChan] at hx
      exact absurd hx hst2
    · have hx' : s.chans x = some ChState.opened := by
        simpa [setChan, hxc] using hx
      exact h6 x hx'

/-- The `onclose` turn preserves the invariant. -/
theorem inv_doOnClose (cap : Nat) (s : Mgr) (c : Nat) (h : Inv s) :
    Inv (doOnClose cap s c) := by
  unfold doOnClose
  cases hc : s.chans c with
  | none => exact h
  | some st =>
    dsimp only
    by_cases he : st = ChState.closed
    · rw [if_pos he]; exact h
    · rw [if_neg he]
      apply inv_retryCheck
      apply inv_clearHb
      apply inv_setChan_dead s c ChState.closed (by rw [hc]; exact fun hh => Option.noConfusion hh)
        (fun hh => ChState.noConfusion hh) (fun hh => ChState.noConfusion hh) h

/-- The `close()` call of `stop()` preserves the invariant. -/
theorem inv_closeCur (s : Mgr) (h : Inv s) : Inv (closeCur s) := by
  unfold closeCur
  cases hw : s.wsRef with
  | none => exact h
  | some d =>
    dsimp only
    cases hc : s.chans d with
    | none => exact h
    | some st =>
      cases st with
      | connecting =>
        have hres := inv_setChan_dead s d ChState.closing
          (by rw [hc]; exact fun hh => Option.noConfusion hh)
          (fun hh => ChState.noConfusion hh) (fun hh => ChState.noConfusion hh) h
        rw [hw] at hres
        exact hres
      | opened =>
        have hres := inv_setChan_dead s d ChState.closing
          (by rw [hc]; exact fun hh => Option.noConfusion hh)
          (fun hh => ChState.noConfusion hh) (fun hh => ChState.noConfusion hh) h
        rw [hw] at hres
        exact hres
      | closing => exact h
      | closed => exact h

/-- `stop()` preserves the invariant. -/
theorem inv_doStop (s : Mgr) (h : Inv s) : Inv (doStop s) := by
  unfold doStop
  exact inv_closeCur _ (inv_clearHb { s with closedByClient := true } h)

/-- Every turn whose side condition holds preserves the invariant. -/
theorem inv_step (cap : Nat) (s : Mgr) (e : Ev) (hok : evOkB s e = true)
    (h : Inv s) : Inv (stepM cap s e) := by
  cases e with
  | callOpen => exact inv_doOpen s h
  | onOpen c =>
    have hws : s.wsRef = some c := by simpa [evOkB] using hok
    exact inv_doOnOpen s c hws h
  | tick t => exact inv_doTick s t h
  | message r => exact h
  | errorEv => exact h
  | onClose c => exact inv_doOnClose cap s c h
  | retryFire =>
    show Inv (if 0 < s.pendingRetries then
      doOpen { s with pendingRetries := s.pendingRetries - 1 } else s)
    by_cases hp : 0 < s.pendingRetries
    · rw [if_pos hp]
      exact inv_doOpen { s with pendingRetries := s.pendingRetries - 1 } h
    · rw [if_neg hp]
      exact h
  | callStop => exact inv_doStop s h

/-- The invariant holds along every trace whose side condition holds. -/
theorem inv_run (cap : Nat) (evs : List Ev) (s : Mgr) (h : Inv s)
    (hok : opensCurrentB cap s evs = true) :
    Inv (evs.foldl (stepM cap) s) := by
  induction evs generalizing s with
  | nil => exact h
  | cons e rest ih =>
    simp only [opensCurrentB, Bool.and_eq_true] at hok
    exact ih (stepM cap s e) (inv_step cap s e hok.1 h) hok.2

end WS

namespace WS

/-- Claim C8 is false on the code as stated: if `open()` is called a second
time while the first socket is still connecting and the second socket's
open event fires before the first one's, the late `onopen` handler of
socket 0 sends the init payload on `this.ws` — which is socket 1, already
open and already initialized — so the init payload is sent twice on one
physical connection (and never on socket 0's). -/
theorem C8_counterexample :
    sentOn (runM 3 [Ev.callOpen, Ev.callOpen, Ev.onOpen 1, Ev.onOpen 0]).sent 1 =
      [OutFrame.initPayload, OutFrame.initPayload] ∧
    sentOn (runM 3 [Ev.callOpen, Ev.callOpen, Ev.onOpen 1, Ev.onOpen 0]).sent 0 = [] ∧
    (runM 3 [Ev.callOpen, Ev.callOpen, Ev.onOpen 1, Ev.onOpen 0]).chans 0 =
      some ChState.opened := by
  exact ⟨by decide, by decide, by decide⟩

/-- Claim C8 as amended: in every run in which each open event fires while
its instance is the one `this.ws` currently references (in particular in
every run that never calls `open()` on a session already owning a live
channel), the frames carried by any physical connection are exactly the
init payload first, followed only by heartbeat pings — so the init payload
is the first frame after the channel opens, is sent exactly once per
physical connection, and precedes every ping; a socket that never opened
carries no frames, and an open socket has sent its init payload. -/
theorem C8_init_first (cap : Nat) (evs : List Ev) (c : Nat)
    (h : opensCurrentB cap initM evs = true) :
    initLed (sentOn (runM cap evs).sent c) = true ∧
    ((runM cap evs).chans c = none ∨ (runM cap evs).chans c = some ChState.connecting →
      sentOn (runM cap evs).sent c = []) ∧
    ((runM cap evs).chans c = some ChState.opened →
      sentOn (runM cap evs).sent c ≠ []) := by
  have hv := inv_run cap evs initM inv_init h
  exact ⟨hv.2.2.2.1 c, hv.2.2.2.2.1 c, hv.2.2.2.2.2 c⟩

/-- Witness for C8: the normal trace open-connect-tick-tick satisfies the
side condition, sends init then two pings on socket 0, and that log is
init-led. -/
theorem C8_init_first_witness :
    opensCurrentB 3 initM [Ev.callOpen, Ev.onOpen 0, Ev.tick 1, Ev.tick 1] = true ∧
    sentOn (runM 3 [Ev.callOpen, Ev.onOpen 0, Ev.tick 1, Ev.tick 1]).sent 0 =
      [OutFrame.initPayload, OutFrame.ping, OutFrame.ping] ∧
    initLed (sentOn (runM 3 [Ev.callOpen, Ev.onOpen 0, Ev.tick 1, Ev.tick 1]).sent 0) =
      true := by
  refine ⟨by decide, by decide,
    (C8_init_first 3 [Ev.callOpen, Ev.onOpen 0, Ev.tick 1, Ev.tick 1] 0 (by decide)).1⟩

end WS
